import Mathlib

/- Shallow embedding of the ikea-crawler repository (src/ikea/client.py,
   src/ikea/crawler.py, src/ikea/pipeline.py, src/ikea/storage.py) together
   with proofs about its reconciliation, storage, client and crawl logic.
   Machine floats of the source are modelled as exact rationals; the
   external network and database are modelled as explicit environment
   parameters (a value of `Option _` is `none` exactly where the
   corresponding Python call raises or returns nothing). -/

namespace IkeaModel

/-- Scalar cell values as they appear in the pandas frame built by
`Pipeline.process_items` (pipeline.py) after list-valued columns have been
converted to their string representation. -/
inductive Val where
  | str (s : String)
  | num (q : ℚ)
  | boolv (b : Bool)
  deriving DecidableEq

/-- Single-quote character used by Python `str` on a list of strings. -/
def sq : String := String.singleton (Char.ofNat 39)

/-- Python `repr` of a string inside a list (quotes only, no escaping). -/
def pyReprStr (s : String) : String := sq ++ s ++ sq

/-- Python `str` of a list of strings, as produced by
`df[key].apply(lambda x: str(x))` in pipeline.py line 53. -/
def pyStrListStr (l : List String) : String :=
  "[" ++ String.intercalate ", " (l.map pyReprStr) ++ "]"

/-- Python `str` of a list of integers. -/
def pyStrListInt (l : List ℤ) : String :=
  "[" ++ String.intercalate ", " (l.map toString) ++ "]"

/-- One product record: the dict literal built at crawler.py lines 168-190.
The four translation fields are added later by `Pipeline` and are absent
(`none`) until then; `price_hr`, the packaging metrics and the translation
fields use `none` for Python `None` / a missing key. -/
structure PItem where
  product_name : String
  product_description : String
  product_long_description : String
  product_id : ℕ
  main_image_url : String
  other_image_urls : List String
  product_url_ikea : String
  price : ℤ
  price_rs : ℚ
  price_hr : Option ℚ
  availability : Bool
  num_of_packages : Option ℕ
  multi_pack : Bool
  product_parts : List ℤ
  sum_volume : Option ℚ
  sum_weight : Option ℚ
  materials : String
  max_dimension : Option ℚ
  modified_date : String
  breadcrumb_categories : List String
  category_tags : List String
  product_description_ru : Option String := none
  product_long_description_ru : Option String := none
  product_description_en : Option String := none
  product_long_description_en : Option String := none
  deriving DecidableEq

/-- Column names of the pandas frame in pipeline.py. -/
inductive Field where
  | product_name
  | product_description
  | product_long_description
  | product_id
  | main_image_url
  | other_image_urls
  | product_url_ikea
  | price
  | price_rs
  | price_hr
  | availability
  | num_of_packages
  | multi_pack
  | product_parts
  | sum_volume
  | sum_weight
  | materials
  | max_dimension
  | modified_date
  | breadcrumb_categories
  | category_tags
  | product_description_ru
  | product_long_description_ru
  | product_description_en
  | product_long_description_en
  deriving DecidableEq

/-- Cell of the frame after the list-to-string conversion loop of
pipeline.py lines 50-55 (`none` is a pandas NaN / missing key). -/
def stringifiedCell (it : PItem) : Field → Option Val
  | .product_name => some (.str it.product_name)
  | .product_description => some (.str it.product_description)
  | .product_long_description => some (.str it.product_long_description)
  | .product_id => some (.num it.product_id)
  | .main_image_url => some (.str it.main_image_url)
  | .other_image_urls => some (.str (pyStrListStr it.other_image_urls))
  | .product_url_ikea => some (.str it.product_url_ikea)
  | .price => some (.num it.price)
  | .price_rs => some (.num it.price_rs)
  | .price_hr => it.price_hr.map .num
  | .availability => some (.boolv it.availability)
  | .num_of_packages => it.num_of_packages.map (fun n => .num n)
  | .multi_pack => some (.boolv it.multi_pack)
  | .product_parts => some (.str (pyStrListInt it.product_parts))
  | .sum_volume => it.sum_volume.map .num
  | .sum_weight => it.sum_weight.map .num
  | .materials => some (.str it.materials)
  | .max_dimension => it.max_dimension.map .num
  | .modified_date => some (.str it.modified_date)
  | .breadcrumb_categories => some (.str (pyStrListStr it.breadcrumb_categories))
  | .category_tags => some (.str (pyStrListStr it.category_tags))
  | .product_description_ru => it.product_description_ru.map .str
  | .product_long_description_ru => it.product_long_description_ru.map .str
  | .product_description_en => it.product_description_en.map .str
  | .product_long_description_en => it.product_long_description_en.map .str

/-- Python `df.notnull() & (x != '')` for one cell (pipeline.py line 64):
non-null and not the empty string. -/
def cellHasData : Option Val → Bool
  | none => false
  | some (.str s) => s != ""
  | some _ => true

/-- Number of records whose `f` cell is non-null and not empty. -/
def dataCount (items : List PItem) (f : Field) : ℕ :=
  items.countP (fun it => cellHasData (stringifiedCell it f))

/-- Percentage entry of `Pipeline._generate_report` for one column
(pipeline.py lines 64-68): `int(count / total * 100)` with exact
rational arithmetic, `int` being truncation (= floor on nonnegatives). -/
def reportVal (items : List PItem) (f : Field) : ℤ :=
  Int.floor ((dataCount items f : ℚ) / (items.length : ℚ) * 100)

/-- Result of `Pipeline._generate_report`. -/
structure Report where
  total_products : ℕ
  percents : Field → ℤ

/-- Embedding of `Pipeline._generate_report` (pipeline.py lines 61-70). -/
def generateReport (items : List PItem) : Report :=
  { total_products := items.length, percents := fun f => reportVal items f }

/-- Embedding of `df.drop_duplicates(subset=["product_id"])` (pipeline.py
line 28): pandas keeps the first row of each duplicate group. -/
def dropDupsAux (seen : List ℕ) : List PItem → List PItem
  | [] => []
  | it :: rest =>
    if it.product_id ∈ seen then dropDupsAux seen rest
    else it :: dropDupsAux (it.product_id :: seen) rest

/-- Deduplication step of `Pipeline.process_items` (pipeline.py lines 26-29). -/
def dropDuplicates (items : List PItem) : List PItem := dropDupsAux [] items

/-- Embedding of `StorageService.get_diff` (storage.py lines 59-74): the
store is an existence predicate on product ids (the code only checks
`session.query(...).first()` truthiness); each product is appended to the
existing or the new list in input order. -/
def getDiff (inStore : ℕ → Bool) : List PItem → List PItem × List PItem
  | [] => ([], [])
  | p :: rest =>
    let (ex, nw) := getDiff inStore rest
    if inStore p.product_id then (p :: ex, nw) else (ex, p :: nw)

/-- Target languages of `Pipeline._translate_description_fields`. -/
inductive Lang where
  | ru
  | en
  deriving DecidableEq

/-- Translation oracle: `some (d, ld)` when the montikea fetch and parse of
both description divs succeed, `none` when the fetch raises or the parse
fails (both cases set the two fields to the empty string in the source,
pipeline.py lines 88-110). -/
def TransOracle := ℕ → Lang → Option (String × String)

/-- Writes the two per-locale description fields of an item. -/
def setLangFields (it : PItem) (lang : Lang) (d ld : String) : PItem :=
  match lang with
  | .ru => { it with product_description_ru := some d,
                     product_long_description_ru := some ld }
  | .en => { it with product_description_en := some d,
                     product_long_description_en := some ld }

/-- Embedding of `Pipeline._translate_description_to_lang`
(pipeline.py lines 80-110). -/
def translateToLang (tr : TransOracle) (lang : Lang) (it : PItem) : PItem :=
  match tr it.product_id lang with
  | none => setLangFields it lang "" ""
  | some (d, ld) => setLangFields it lang d ld

/-- Embedding of `Pipeline._translate_description_fields`
(pipeline.py lines 72-78): RU first, then EN. -/
def translateItem (tr : TransOracle) (it : PItem) : PItem :=
  translateToLang tr .en (translateToLang tr .ru it)

/-- Final flattening `df.fillna(0)` of pipeline.py line 59: missing cells
become the number 0. -/
def flattenItem (it : PItem) : Field → Val :=
  fun f => (stringifiedCell it f).getD (Val.num 0)

/-- Embedding of `Pipeline.process_items` (pipeline.py lines 21-59).
`store = none` models the diff operation raising (store unreachable);
the `try/except` there routes the whole deduplicated batch to
`existing_items` and leaves `new_items` empty. Returns the flattened
final batch, the coverage report and the number of items that went
through the translation loop. -/
def processItems (store : Option (ℕ → Bool)) (tr : TransOracle)
    (items0 : List PItem) : List (Field → Val) × Report × ℕ :=
  let items1 := dropDuplicates items0
  let exnw :=
    match store with
    | some s => getDiff s items1
    | none => (items1, [])
  let translated := exnw.2.map (translateItem tr)
  let items2 := exnw.1 ++ translated
  (items2.map flattenItem, generateReport items2, exnw.2.length)

/- ===== StorageService.upsert (storage.py lines 76-103) ===== -/

/-- Left-biased choice, the effect of overwriting reads: `oor a b` is `a`
when present, else `b`. -/
def oor {α : Type} : Option α → Option α → Option α
  | some v, _ => some v
  | none, b => b

/-- One database row as a partial map from column name to value; a column
never assigned is `none` (NULL). -/
def Rec := String → Option Val

/-- Row with no assigned columns. -/
def emptyRec : Rec := fun _ => none

/-- Effect of `for key, value in product.items(): setattr(row, key, value)`
(storage.py lines 91-92): keys of `p` overwrite, others keep the row's
previous value. -/
def mergeRec (r : Rec) (p : Rec) : Rec := fun k => oor (p k) (r k)

/-- A product dict handed to `StorageService.upsert`: its primary key
`product['product_id']` and its column assignments. -/
structure UpsertProduct where
  pid : ℕ
  fields : Rec

/-- The table, one optional row per product id. -/
def Store := ℕ → Option Rec

/-- One iteration of the upsert loop (storage.py lines 82-100): if a row
with the product's id exists, its columns named in the dict are
overwritten; otherwise `Product(**product)` inserts a fresh row carrying
exactly the dict's columns. -/
def upsertOne (s : Store) (p : UpsertProduct) : Store :=
  fun i =>
    if i = p.pid then some (mergeRec ((s p.pid).getD emptyRec) p.fields)
    else s i

/-- Embedding of `StorageService.upsert` over a batch. -/
def upsert (s : Store) (batch : List UpsertProduct) : Store :=
  batch.foldl upsertOne s

/- ===== IKEAClient.get_category_tags (client.py lines 23-41) ===== -/

/-- Body of the category-tags response: structurally broken JSON, or a
well-formed object that may or may not carry the `rangeIds` key. -/
inductive TagsBody where
  | malformed
  | wellFormed (rangeIds : Option (List String))
  deriving DecidableEq

/-- An HTTP response for the tag lookup. -/
structure TagsResp where
  status : ℕ
  body : TagsBody
  deriving DecidableEq

/-- Failure modes of the tag lookup that escape as Python exceptions. -/
inductive ClientErr where
  | fetchErr
  | parseErr
  deriving DecidableEq

/-- Embedding of `IKEAClient.get_category_tags` (client.py lines 23-41).
`http pid = none` models `requests.get` raising. A non-200 status returns
`None`; on a 200 response, `response.json()["rangeIds"]` raises when the
body is malformed or lacks the key. -/
def getCategoryTags (http : ℕ → Option TagsResp) (pid : ℕ) :
    Except ClientErr (Option (List String)) :=
  match http pid with
  | none => .error .fetchErr
  | some r =>
    if r.status ≠ 200 then .ok none
    else
      match r.body with
      | .malformed => .error .parseErr
      | .wellFormed none => .error .parseErr
      | .wellFormed (some tags) => .ok (some tags)

/- ===== IKEACrawler (crawler.py) ===== -/

/-- One entry of the listing's `availability` array; `store = none` models
a dict without the `"store"` key (crawler.py lines 67-69). -/
structure StoreEntry where
  store : Option String
  status : String
  deriving DecidableEq

/-- Raw category-page listing record (`prod` in crawler.py), holding the
JSON keys the crawler reads. -/
structure Listing where
  id : String
  name : String
  mainImageAlt : String
  mainImageUrl : String
  pipUrl : String
  salesPriceNumeral : ℚ
  availability : List StoreEntry
  categoryPath : List String
  deriving DecidableEq

/-- Integer and decimal price spans inside the Croatian price div; a span
that is missing or whose text does not parse is `none` (each is wrapped in
its own try/except falling back to 0, crawler.py lines 51-58). -/
structure PriceSpans where
  integerPart : Option ℕ
  decimalPart : Option ℕ
  deriving DecidableEq

/-- Croatian product page: it may or may not contain the price div
(crawler.py lines 49-61). -/
structure HrPage where
  priceDiv : Option PriceSpans
  deriving DecidableEq

/-- One `dl` materials entry: optional `dt` text and `dd` text
(crawler.py lines 92-98). -/
structure MatEntry where
  dt : Option String
  dd : String
  deriving DecidableEq

/-- One measurement paragraph of a package container, classified by which
keyword its text contains (the elif chain of crawler.py lines 130-147);
dimension values are the parsed integer before the division by 100. -/
inductive Meas where
  | width (n : ℕ)
  | height (n : ℕ)
  | length (n : ℕ)
  | weight (q : ℚ)
  | packages (n : ℕ)
  | other
  deriving DecidableEq

/-- One packaging container div: the product-identifier span text (absent
span raises, crawler.py line 119-120) and its measurement paragraphs. -/
structure PackContainer where
  identSpan : Option String
  measurements : List Meas
  deriving DecidableEq

/-- Parsed product detail page; `detailsParagraphs = none` models a page
without the product-details container (whose `find` returns `None` and the
following `find_all` raises), `materialEntries = none` models the materials
block whose parse raises inside its try/except, `mediaGrids` are the image
grids with their `img src` values, in page order. -/
structure DetailPage where
  detailsParagraphs : Option (List String)
  materialEntries : Option (List MatEntry)
  mediaGrids : List (List String)
  packageContainers : List PackContainer
  multiPackDiv : Bool
  deriving DecidableEq

/-- A subcategory entry of the category tree (client.py lines 57-67). -/
structure SubCat where
  sub_cat_name : String
  sub_cat_id : String
  deriving DecidableEq

/-- External world of a crawl run. A `none` from `getProductsInCat`,
`hrFetch` or `detailFetch` models the corresponding network call raising
after exhausted retries; `now` is the formatted timestamp. -/
structure CrawlEnv where
  categoryTree : List (String × List SubCat)
  getProductsInCat : String → Option (List Listing)
  hrFetch : String → Option HrPage
  detailFetch : String → Option DetailPage
  tagsHttp : ℕ → Option TagsResp
  now : String

/-- Numeric value of a digit string. -/
def digitsVal (ds : List Char) : ℕ :=
  ds.foldl (fun n c => 10 * n + (c.toNat - 48)) 0

/-- Embedding of `int("".join(filter(str.isdigit, prod["id"])))`
(crawler.py lines 29-30); `none` when no digit remains (`int("")` raises). -/
def numericId (s : String) : Option ℕ :=
  let ds := s.toList.filter Char.isDigit
  if ds.isEmpty then none else some (digitsVal ds)

/-- URL rewrite `product_url_ikea[:20] + "/hr/hr/" + product_url_ikea[27:]`
(crawler.py line 46). -/
def hrUrl (u : String) : String := u.take 20 ++ "/hr/hr/" ++ u.drop 27

/-- Croatian price lookup (crawler.py lines 44-64): `none` when the page
fetch raises or the price div is missing (the raised `ValueError` is caught
and `price_hr` set to `None`); with the div present, each missing span
falls back to 0 and the price is `integer + decimal/100`. -/
def computePriceHr (hrFetch : String → Option HrPage) (pipUrl : String) :
    Option ℚ :=
  match hrFetch (hrUrl pipUrl) with
  | none => none
  | some page =>
    match page.priceDiv with
    | none => none
    | some spans =>
      some ((spans.integerPart.getD 0 : ℚ) + (spans.decimalPart.getD 0 : ℚ) / 100)

/-- Availability loop of crawler.py lines 66-72: starts `False`, entries
without a `"store"` key or for another store are skipped, and each Beograd
entry overwrites the flag with `status != "OUT_OF_STOCK"`. -/
def computeAvailability (entries : List StoreEntry) : Bool :=
  entries.foldl
    (fun acc e =>
      match e.store with
      | none => acc
      | some s => if s ≠ "Beograd" then acc else !(e.status == "OUT_OF_STOCK"))
    false

/-- Derived price `math.ceil(salesPrice * 1.44 / 117)` (crawler.py line 42). -/
def computePrice (numeral : ℚ) : ℤ := Int.ceil (numeral * (144 / 100) / 117)

/-- Embedding of `int(span.text.replace(".", "").lstrip("0"))`
(crawler.py line 120); `none` when the remaining text is empty or not all
digits (then `int` raises). -/
def parseIdentSpan (s : String) : Option ℤ :=
  let t := (s.replace "." "").toList.dropWhile (fun c => c = '0')
  if t.isEmpty then none
  else if t.all Char.isDigit then some (digitsVal t : ℤ)
  else none

/-- Failure modes that escape `_process_single_product` as exceptions and
are caught by the orchestrator loops. -/
inductive CrawlErr where
  | idParse
  | longDesc
  | images
  | packaging
  | tags (e : ClientErr)
  deriving DecidableEq

/-- Running totals of the packaging loop (crawler.py lines 111-115). -/
structure PackState where
  volumeTotal : ℚ
  weightTotal : ℚ
  maxDim : ℚ
  numPackages : ℕ
  productParts : List ℤ
  deriving DecidableEq

/-- Per-container measurement scan state (crawler.py lines 125-147):
container-local width/height/length/weight plus the shared max-dimension
and package-count accumulators. -/
structure MeasState where
  width : Option ℚ
  height : Option ℚ
  length : Option ℚ
  weight : Option ℚ
  maxDim : ℚ
  numPackages : ℕ
  deriving DecidableEq

/-- One measurement paragraph (the elif chain of crawler.py lines 130-147);
dimensions are divided by 100 and bump the max dimension at assignment. -/
def measStep (st : MeasState) : Meas → MeasState
  | .width n =>
    let w : ℚ := (n : ℚ) / 100
    { st with width := some w, maxDim := if w > st.maxDim then w else st.maxDim }
  | .height n =>
    let h : ℚ := (n : ℚ) / 100
    { st with height := some h, maxDim := if h > st.maxDim then h else st.maxDim }
  | .length n =>
    let l : ℚ := (n : ℚ) / 100
    { st with length := some l, maxDim := if l > st.maxDim then l else st.maxDim }
  | .weight q => { st with weight := some q }
  | .packages n => { st with numPackages := st.numPackages + n }
  | .other => st

/-- Python truthiness of an optional float (`if width and ...`):
present and nonzero. -/
def qTruthy : Option ℚ → Bool
  | none => false
  | some q => q != 0

/-- One packaging container (crawler.py lines 117-153): a missing or
unparseable identifier span raises; volume is added only when width,
height and length are all truthy, weight only when truthy. -/
def processContainer (st : PackState) (c : PackContainer) :
    Except CrawlErr PackState :=
  match c.identSpan with
  | none => .error .packaging
  | some s =>
    match parseIdentSpan s with
    | none => .error .packaging
    | some v =>
      let m := c.measurements.foldl measStep
        ⟨none, none, none, none, st.maxDim, st.numPackages⟩
      let volAdd : ℚ :=
        if qTruthy m.width && qTruthy m.height && qTruthy m.length
        then m.width.getD 0 * m.height.getD 0 * m.length.getD 0 else 0
      let wAdd : ℚ := if qTruthy m.weight then m.weight.getD 0 else 0
      .ok { volumeTotal := st.volumeTotal + volAdd,
            weightTotal := st.weightTotal + wAdd,
            maxDim := m.maxDim,
            numPackages := m.numPackages,
            productParts := st.productParts ++ [v] }

/-- Python `round` on a rational: round-half-to-even. -/
def pyRound (q : ℚ) : ℤ :=
  let f := q.floor
  let r := q - f
  if r < 1 / 2 then f
  else if 1 / 2 < r then f + 1
  else if f % 2 = 0 then f else f + 1

/-- Python `round(x, 2)`. -/
def round2 (q : ℚ) : ℚ := (pyRound (q * 100) : ℚ) / 100

/-- Materials text (crawler.py lines 87-101): an absent header span or any
exception in the block yields the empty string; else one line per `dl`. -/
def formatMaterials : Option (List MatEntry) → String
  | none => ""
  | some es =>
    String.intercalate "\n"
      (es.map (fun e =>
        match e.dt with
        | some t => t ++ " " ++ e.dd
        | none => e.dd))

/-- The product dict literal of crawler.py lines 168-190. -/
def mkProduct (env : CrawlEnv) (pid : ℕ) (l : Listing) (page : DetailPage)
    (paragraphs : List String) (grid : List String) (pack : PackState)
    (tagsRes : Option (List String)) : PItem :=
  let breadcrumb := l.categoryPath
  { product_name := l.name
    product_description := l.mainImageAlt.replace (l.name ++ " ") ""
    product_long_description := String.intercalate "\n\n" paragraphs
    product_id := pid
    main_image_url := l.mainImageUrl
    other_image_urls := grid
    product_url_ikea := l.pipUrl
    price := computePrice l.salesPriceNumeral
    price_rs := l.salesPriceNumeral
    price_hr := computePriceHr env.hrFetch l.pipUrl
    availability := computeAvailability l.availability
    num_of_packages := if pack.numPackages ≠ 0 then some pack.numPackages else none
    multi_pack := page.multiPackDiv
    product_parts := pack.productParts
    sum_volume := if pack.volumeTotal ≠ 0 then some (round2 pack.volumeTotal) else none
    sum_weight := if pack.weightTotal ≠ 0 then some (round2 pack.weightTotal) else none
    materials := formatMaterials page.materialEntries
    max_dimension := if pack.maxDim ≠ 0 then some pack.maxDim else none
    modified_date := env.now
    breadcrumb_categories := breadcrumb
    category_tags :=
      match tagsRes with
      | some ts => if ts.isEmpty then breadcrumb else ts
      | none => breadcrumb }

/-- Detail-page phase of `_process_single_product` (crawler.py lines
74-192), entered after the id was recorded: a failed page fetch returns
`None` (absent product); a missing details container, an empty media-grid
list, an unparseable package identifier or a raising tag lookup escape as
exceptions; a failed materials parse only empties that field. -/
def enrichDetail (env : CrawlEnv) (pid : ℕ) (l : Listing) :
    Except CrawlErr (Option PItem) :=
  match env.detailFetch l.pipUrl with
  | none => .ok none
  | some page =>
    match page.detailsParagraphs with
    | none => .error .longDesc
    | some paragraphs =>
      match page.mediaGrids with
      | [] => .error .images
      | grid :: _ =>
        match page.packageContainers.foldlM processContainer ⟨0, 0, 0, 0, []⟩ with
        | .error e => .error e
        | .ok pack =>
          match getCategoryTags env.tagsHttp pid with
          | .error e => .error (.tags e)
          | .ok tagsRes =>
            .ok (some (mkProduct env pid l page paragraphs grid pack tagsRes))

/-- Embedding of `IKEACrawler._process_single_product` (crawler.py lines
23-192). The first component is the updated `_crawled_ids` list: the id is
appended as soon as it parses and is unseen, before any further work; the
second component is the outcome (`.ok none` = already seen, or detail page
unreachable; `.error` = an uncaught exception). -/
def processSingleProduct (env : CrawlEnv) (seen : List ℕ) (l : Listing) :
    List ℕ × Except CrawlErr (Option PItem) :=
  match numericId l.id with
  | none => (seen, .error .idParse)
  | some pid =>
    if pid ∈ seen then (seen, .ok none)
    else (seen ++ [pid], enrichDetail env pid l)

/-- Products yielded by processing a listing sequence without any cap:
exceptions and absent results are dropped (crawler.py lines 240-251). -/
def yieldProds (env : CrawlEnv) (crawled : List ℕ) :
    List Listing → List ℕ × List PItem
  | [] => (crawled, [])
  | l :: rest =>
    let step := processSingleProduct env crawled l
    match step.2 with
    | .ok (some p) =>
      let y := yieldProds env step.1 rest
      (y.1, p :: y.2)
    | _ => yieldProds env step.1 rest

/-- The cap test `self._num_products and len(self.products) +
len(processed_products) == self._num_products` (crawler.py lines 254-255):
`none` and 0 are falsy. -/
def capReached (cap : Option ℕ) (m : ℕ) : Bool :=
  match cap with
  | none => false
  | some n => (n != 0) && (m == n)

/-- Embedding of `IKEACrawler._process_products` (crawler.py lines
231-259): `base` is `len(self.products)` (unchanged during the loop),
`acc` the processed list; the cap test runs only after an append, and a
hit abandons the rest of the listing sequence with the done flag set. -/
def processLoop (env : CrawlEnv) (cap : Option ℕ) (base : ℕ)
    (crawled : List ℕ) (acc : List PItem) :
    List Listing → List ℕ × List PItem × Bool
  | [] => (crawled, acc, false)
  | l :: rest =>
    let step := processSingleProduct env crawled l
    match step.2 with
    | .ok (some p) =>
      let acc2 := acc ++ [p]
      if capReached cap (base + acc2.length) then (step.1, acc2, true)
      else processLoop env cap base step.1 acc2 rest
    | _ => processLoop env cap base step.1 acc rest

/-- Run state of `IKEACrawler`: `self.products`, `self._crawled_ids`,
`self._done`. -/
structure CrawlState where
  products : List PItem
  crawledIds : List ℕ
  done : Bool
  deriving DecidableEq

/-- One subcategory iteration of `IKEACrawler.run` (crawler.py lines
273-289): the literal exclusion, a failed listing fetch skipping the
subcategory, else the processing loop extending the accumulated state. -/
def stepSubCat (env : CrawlEnv) (cap : Option ℕ) (st : CrawlState)
    (sc : SubCat) : CrawlState :=
  if sc.sub_cat_name == "Restoran i Bistro" then st
  else
    match env.getProductsInCat sc.sub_cat_id with
    | none => st
    | some listings =>
      let r := processLoop env cap st.products.length st.crawledIds [] listings
      { products := st.products ++ r.2.1,
        crawledIds := r.1,
        done := st.done || r.2.2 }

/-- Subcategory walk with the `if self._done: break` at the loop bottom
(crawler.py lines 291-292). -/
def runSubCats (env : CrawlEnv) (cap : Option ℕ) (st : CrawlState) :
    List SubCat → CrawlState
  | [] => st
  | sc :: rest =>
    let st2 := stepSubCat env cap st sc
    if st2.done then st2 else runSubCats env cap st2 rest

/-- Category walk with the outer `if self._done: break`
(crawler.py lines 293-294). -/
def runCats (env : CrawlEnv) (cap : Option ℕ) (st : CrawlState) :
    List (String × List SubCat) → CrawlState
  | [] => st
  | c :: rest =>
    let st2 := runSubCats env cap st c.2
    if st2.done then st2 else runCats env cap st2 rest

/-- Embedding of `IKEACrawler.run` in sequential mode (crawler.py lines
261-295), starting from the freshly constructed crawler state. -/
def runCrawler (env : CrawlEnv) (cap : Option ℕ) : CrawlState :=
  runCats env cap ⟨[], [], false⟩ env.categoryTree

/- ===== Concrete fixtures used by witnesses and counterexamples ===== -/

/-- A minimal product record used as concrete input. -/
def testItem (nm : String) (pid : ℕ) (ph : Option ℚ) : PItem :=
  { product_name := nm, product_description := "", product_long_description := "",
    product_id := pid, main_image_url := "", other_image_urls := [],
    product_url_ikea := "", price := 0, price_rs := 0, price_hr := ph,
    availability := false, num_of_packages := none, multi_pack := false,
    product_parts := [], sum_volume := none, sum_weight := none, materials := "",
    max_dimension := none, modified_date := "", breadcrumb_categories := [],
    category_tags := [] }

/- ===== C1: deduplication in Pipeline.process_items ===== -/

/-- Filter of the deduplicated list by one identifier, relative to an
already-seen set: empty when the identifier was seen, otherwise exactly the
first occurrence. -/
theorem dropDupsAux_filter (i : ℕ) :
    ∀ (items : List PItem) (seen : List ℕ),
      (dropDupsAux seen items).filter (fun it => it.product_id == i) =
        if i ∈ seen then []
        else (items.find? (fun it => it.product_id == i)).toList := by
  intro items
  induction items with
  | nil =>
    intro seen
    by_cases h : i ∈ seen <;> simp [dropDupsAux, h]
  | cons it rest ih =>
    intro seen
    by_cases h1 : it.product_id ∈ seen
    · rw [show dropDupsAux seen (it :: rest) = dropDupsAux seen rest from by
        simp [dropDupsAux, h1]]
      rw [ih seen]
      by_cases h2 : i ∈ seen
      · simp [h2]
      · have hne : (it.product_id == i) = false := by
          simp only [beq_eq_false_iff_ne, ne_eq]
          intro hcontra
          exact h2 (hcontra ▸ h1)
        simp [h2, List.find?, hne]
    · rw [show dropDupsAux seen (it :: rest) =
            it :: dropDupsAux (it.product_id :: seen) rest from by
        simp [dropDupsAux, h1]]
      by_cases h2 : it.product_id = i
      · have hbeq : (it.product_id == i) = true := beq_iff_eq.mpr h2
        rw [List.filter_cons, if_pos (by simp [hbeq])]
        rw [ih (it.product_id :: seen)]
        have hmem : i ∈ it.product_id :: seen := by
          rw [← h2]; exact List.mem_cons_self _ _
        have hnmem : i ∉ seen := h2 ▸ h1
        simp [hmem, hnmem, List.find?, hbeq]
      · have hbeq : (it.product_id == i) = false := by
          simp only [beq_eq_false_iff_ne, ne_eq]; exact h2
        rw [List.filter_cons, if_neg (by simp [hbeq])]
        rw [ih (it.product_id :: seen)]
        have hiff : i ∈ it.product_id :: seen ↔ i ∈ seen := by
          constructor
          · intro hm
            rcases List.mem_cons.mp hm with hm | hm
            · exact absurd hm.symm h2
            · exact hm
          · exact fun hm => List.mem_cons_of_mem _ hm
        by_cases h3 : i ∈ seen
        · simp [h3, hiff.mpr h3]
        · have : i ∉ it.product_id :: seen := fun hm => h3 (hiff.mp hm)
          simp [h3, this, List.find?, hbeq]

/-- C1 (amended): the deduplication of `Pipeline.process_items` keeps
exactly one record per identifier occurring in the batch, and the record
kept is the first-seen occurrence of that identifier (pandas
`drop_duplicates` keeps the first row), not the last-seen one. -/
theorem c1_dedup_first_wins (items : List PItem) (i : ℕ)
    (h : i ∈ items.map (fun it => it.product_id)) :
    (dropDuplicates items).filter (fun it => it.product_id == i) =
      (items.find? (fun it => it.product_id == i)).toList ∧
    ((dropDuplicates items).filter (fun it => it.product_id == i)).length = 1 := by
  have hfix := dropDupsAux_filter i items []
  simp only [List.not_mem_nil, if_false] at hfix
  have hfind : (items.find? (fun it => it.product_id == i)).isSome := by
    rw [List.find?_isSome]
    rcases List.mem_map.mp h with ⟨it, hmem, hpid⟩
    exact ⟨it, hmem, beq_iff_eq.mpr hpid⟩
  constructor
  · exact hfix
  · rw [dropDuplicates, hfix]
    rcases Option.isSome_iff_exists.mp hfind with ⟨it, hit⟩
    rw [hit]
    rfl

/-- C1 witness: concrete two-record batch with a duplicated identifier. -/
theorem c1_dedup_first_wins_witness :
    ((dropDuplicates [testItem "a" 1 none, testItem "b" 1 none]).filter
        (fun it => it.product_id == 1) =
      ([testItem "a" 1 none, testItem "b" 1 none].find?
        (fun it => it.product_id == 1)).toList) ∧
    ((dropDuplicates [testItem "a" 1 none, testItem "b" 1 none]).filter
        (fun it => it.product_id == 1)).length = 1 :=
  c1_dedup_first_wins [testItem "a" 1 none, testItem "b" 1 none] 1 (by decide)

/-- C1 counterexample: for the batch `[a, b]` with equal identifiers and
`a ≠ b`, deduplication keeps `a`, the first-seen record — not the
last-seen one as the claim states. -/
theorem c1_counterexample :
    dropDuplicates [testItem "a" 1 none, testItem "b" 1 none] =
      [testItem "a" 1 none] ∧
    testItem "a" 1 none ≠ testItem "b" 1 none := by
  constructor
  · decide
  · decide

/- ===== C3: StorageService.get_diff is a partition ===== -/

/-- The diff loop routes each record by the existence check on its id. -/
theorem getDiff_eq_filter (inStore : ℕ → Bool) :
    ∀ items : List PItem,
      getDiff inStore items =
        (items.filter (fun p => inStore p.product_id),
         items.filter (fun p => !inStore p.product_id)) := by
  intro items
  induction items with
  | nil => rfl
  | cons p rest ih =>
    show (let r := getDiff inStore rest;
          if inStore p.product_id then (p :: r.1, r.2) else (r.1, p :: r.2)) = _
    rw [ih]
    by_cases h : inStore p.product_id
    · simp [h, List.filter_cons]
    · simp [h, List.filter_cons]

/-- C3: `StorageService.get_diff` partitions every batch by identifier —
the union of the identifier sets of the existing and new subsets equals
the identifier set of the input batch, and their intersection is empty. -/
theorem c3_diff_partition (inStore : ℕ → Bool) (items : List PItem) :
    ((getDiff inStore items).1.map (fun p => p.product_id)).toFinset ∪
        ((getDiff inStore items).2.map (fun p => p.product_id)).toFinset =
      (items.map (fun p => p.product_id)).toFinset ∧
    ((getDiff inStore items).1.map (fun p => p.product_id)).toFinset ∩
        ((getDiff inStore items).2.map (fun p => p.product_id)).toFinset = ∅ := by
  rw [getDiff_eq_filter]
  constructor
  · ext x
    simp only [Finset.mem_union, List.mem_toFinset, List.mem_map,
      List.mem_filter, Bool.not_eq_true']
    constructor
    · rintro (⟨p, ⟨hp, _⟩, rfl⟩ | ⟨p, ⟨hp, _⟩, rfl⟩) <;> exact ⟨p, hp, rfl⟩
    · rintro ⟨p, hp, rfl⟩
      by_cases h : inStore p.product_id = true
      · exact Or.inl ⟨p, ⟨hp, h⟩, rfl⟩
      · exact Or.inr ⟨p, ⟨hp, by simpa using h⟩, rfl⟩
  · ext x
    simp only [Finset.mem_inter, List.mem_toFinset, List.mem_map,
      List.mem_filter, Bool.not_eq_true', Finset.not_mem_empty, iff_false]
    rintro ⟨⟨p, ⟨_, hp⟩, rfl⟩, ⟨q, ⟨_, hq⟩, hqx⟩⟩
    rw [hqx, hp] at hq
    exact Bool.noConfusion hq

/- ===== C5: IKEAClient.get_category_tags ===== -/

/-- C5 (amended): the category-tag lookup returns `None` on any response
whose status is not exactly 200; on a 200 response with a well-formed body
carrying `rangeIds` it returns that tag list; but it raises — rather than
returning absent — when the request itself fails, and also on a 200
response whose body is malformed or lacks `rangeIds`. -/
theorem c5_tags_behavior (http : ℕ → Option TagsResp) (pid : ℕ) :
    (http pid = none → getCategoryTags http pid = .error .fetchErr) ∧
    (∀ r, http pid = some r → r.status ≠ 200 →
      getCategoryTags http pid = .ok none) ∧
    (∀ r ts, http pid = some r → r.status = 200 →
      r.body = .wellFormed (some ts) →
      getCategoryTags http pid = .ok (some ts)) ∧
    (∀ r, http pid = some r → r.status = 200 →
      (r.body = .malformed ∨ r.body = .wellFormed none) →
      getCategoryTags http pid = .error .parseErr) := by
  refine ⟨?_, ?_, ?_, ?_⟩
  · intro h
    simp [getCategoryTags, h]
  · intro r h hs
    simp [getCategoryTags, h, hs]
  · intro r ts h hs hb
    simp [getCategoryTags, h, hs, hb]
  · intro r h hs hb
    rcases hb with hb | hb <;> simp [getCategoryTags, h, hs, hb]

/-- C5 witness: a 404 response yields `None` without raising. -/
theorem c5_tags_behavior_witness :
    getCategoryTags (fun _ => some ⟨404, TagsBody.malformed⟩) 7 = .ok none :=
  (c5_tags_behavior (fun _ => some ⟨404, TagsBody.malformed⟩) 7).2.1
    ⟨404, TagsBody.malformed⟩ rfl (by decide)

/-- C5 counterexample: on a 200 response with a malformed body the lookup
raises instead of returning absent, and on a well-formed 201 (a 2xx
status) response it returns absent instead of the tag list. -/
theorem c5_counterexample :
    getCategoryTags (fun _ => some ⟨200, TagsBody.malformed⟩) 1 =
      .error .parseErr ∧
    getCategoryTags (fun _ => some ⟨201, TagsBody.wellFormed (some ["t"])⟩) 2 =
      .ok none := by
  constructor
  · rfl
  · rfl

/- ===== C6: store unreachable during diff ===== -/

/-- C6: when the diff operation raises (store unreachable), the pipeline
routes the whole deduplicated batch to the existing subset, translates
zero items, and still returns a final flattened batch and a coverage
report over it. -/
theorem c6_store_down (tr : TransOracle) (items : List PItem) :
    (processItems none tr items).2.2 = 0 ∧
    (processItems none tr items).1 = (dropDuplicates items).map flattenItem ∧
    (processItems none tr items).2.1 = generateReport (dropDuplicates items) := by
  refine ⟨rfl, ?_, ?_⟩ <;> simp [processItems]

/- ===== C7: coverage report percentages ===== -/

/-- C7: for a non-empty batch the coverage report's entry for a field is
the (floor of the) percentage of records whose cell is non-null and
non-empty; in particular a 4-record batch with `price_hr` set on exactly 3
records reports 75 for `price_hr`. -/
theorem c7_coverage_percent :
    (∀ (items : List PItem) (f : Field), items ≠ [] →
      (generateReport items).percents f =
        ((100 * dataCount items f) / items.length : ℕ)) ∧
    (∀ items : List PItem, items.length = 4 →
      dataCount items Field.price_hr = 3 →
      (generateReport items).percents Field.price_hr = 75) := by
  have main : ∀ (items : List PItem) (f : Field),
      (generateReport items).percents f =
        ((100 * dataCount items f) / items.length : ℕ) := by
    intro items f
    show Int.floor ((dataCount items f : ℚ) / (items.length : ℚ) * 100) = _
    have h1 : (dataCount items f : ℚ) / (items.length : ℚ) * 100 =
        ((100 * dataCount items f : ℕ) : ℚ) / ((items.length : ℕ) : ℚ) := by
      push_cast
      ring
    rw [h1]
    rw [← Int.natCast_floor_eq_floor
      (div_nonneg (by positivity) (by positivity))]
    rw [Nat.floor_div_eq_div]
  constructor
  · intro items f _
    exact main items f
  · intro items h4 h3
    rw [main items Field.price_hr, h3, h4]
    norm_num

/-- C7 witness: a concrete 4-record batch with `price_hr` on 3 records. -/
theorem c7_coverage_percent_witness :
    (generateReport [testItem "a" 1 (some 10), testItem "b" 2 (some 5),
      testItem "c" 3 (some 1), testItem "d" 4 none]).percents Field.price_hr
      = 75 :=
  c7_coverage_percent.2
    [testItem "a" 1 (some 10), testItem "b" 2 (some 5),
      testItem "c" 3 (some 1), testItem "d" 4 none]
    (by decide) (by decide)

/- ===== C8: StorageService.upsert is idempotent ===== -/

/-- Associativity of left-biased choice. -/
theorem oor_assoc {α : Type} (a b c : Option α) :
    oor a (oor b c) = oor (oor a b) c := by
  cases a <;> rfl

/-- Absorption law behind upsert idempotence. -/
theorem oor_absorb {α : Type} (a b c : Option α) :
    oor a (oor b (oor a (oor b c))) = oor a (oor b c) := by
  cases a <;> cases b <;> rfl

/-- Value written last for a column, scanning a field-map list from the
right. -/
def revFind (k : String) : List Rec → Option Val
  | [] => none
  | f :: fs => oor (revFind k fs) (f k)

/-- Folding merges evaluates, per column, to the last write if any, else
the original row's value. -/
theorem foldl_mergeRec_apply (fs : List Rec) :
    ∀ (r : Rec) (k : String),
      (fs.foldl mergeRec r) k = oor (revFind k fs) (r k) := by
  induction fs with
  | nil =>
    intro r k
    simp [revFind, oor]
  | cons f fs ih =>
    intro r k
    show (fs.foldl mergeRec (mergeRec r f)) k = _
    rw [ih]
    show oor (revFind k fs) (oor (f k) (r k)) = _
    rw [revFind, ← oor_assoc]

/-- The field maps of the batch entries carrying a given product id, in
batch order. -/
def keyed (i : ℕ) (b : List UpsertProduct) : List Rec :=
  (b.filter (fun p => p.pid == i)).map UpsertProduct.fields

/-- Effect of an upsert batch on a single row, folded over the entries
that address it. -/
def applyRecs (or : Option Rec) : List Rec → Option Rec
  | [] => or
  | f :: fs => applyRecs (some (mergeRec (or.getD emptyRec) f)) fs

/-- An upsert batch acts on each row through exactly the entries keyed to
that row's id, in order. -/
theorem upsert_apply (b : List UpsertProduct) :
    ∀ (s : Store) (i : ℕ), upsert s b i = applyRecs (s i) (keyed i b) := by
  induction b with
  | nil => intro s i; rfl
  | cons p rest ih =>
    intro s i
    show upsert (upsertOne s p) rest i = _
    rw [ih]
    by_cases h : p.pid = i
    · have h1 : upsertOne s p i =
          some (mergeRec ((s i).getD emptyRec) p.fields) := by
        rw [upsertOne, if_pos h.symm, h]
      have h2 : keyed i (p :: rest) = p.fields :: keyed i rest := by
        simp [keyed, List.filter_cons, h]
      rw [h1, h2]
      rfl
    · have h1 : upsertOne s p i = s i := by
        rw [upsertOne, if_neg (fun hh => h hh.symm)]
      have h2 : keyed i (p :: rest) = keyed i rest := by
        simp [keyed, List.filter_cons, h]
      rw [h1, h2]

/-- `applyRecs` from a present row is a plain merge fold. -/
theorem applyRecs_some (fs : List Rec) :
    ∀ r : Rec, applyRecs (some r) fs = some (fs.foldl mergeRec r) := by
  induction fs with
  | nil => intro r; rfl
  | cons f fs ih =>
    intro r
    show applyRecs (some (mergeRec r f)) fs = _
    rw [ih]
    rfl

/-- Applying the same keyed entries twice equals applying them once. -/
theorem applyRecs_idem (fs : List Rec) (or : Option Rec) :
    applyRecs (applyRecs or fs) fs = applyRecs or fs := by
  cases fs with
  | nil => rfl
  | cons f fs =>
    show applyRecs (applyRecs (some (mergeRec (or.getD emptyRec) f)) fs)
        (f :: fs) = _
    rw [applyRecs_some]
    show applyRecs
        (some (mergeRec (fs.foldl mergeRec (mergeRec (or.getD emptyRec) f)) f))
        fs = _
    rw [applyRecs_some]
    show _ = applyRecs (some (mergeRec (or.getD emptyRec) f)) fs
    rw [applyRecs_some]
    congr 1
    funext k
    simp only [foldl_mergeRec_apply, mergeRec]
    exact oor_absorb _ _ _

/-- C8: `StorageService.upsert` is idempotent — running the same batch
twice from any initial store state yields the same stored state as running
it once. -/
theorem c8_upsert_idempotent (s : Store) (b : List UpsertProduct) :
    upsert (upsert s b) b = upsert s b := by
  funext i
  rw [upsert_apply, upsert_apply]
  exact applyRecs_idem _ _

/- ===== Enrichment success/failure helpers (C4, C9) ===== -/

/-- The packaging fold succeeds when every container has a parseable
identifier span. -/
theorem foldlM_containers_ok :
    ∀ cs : List PackContainer,
      (∀ c ∈ cs, ∃ s v, c.identSpan = some s ∧ parseIdentSpan s = some v) →
      ∀ st : PackState,
        ∃ st2, cs.foldlM processContainer st = Except.ok st2 := by
  intro cs
  induction cs with
  | nil => exact fun _ st => ⟨st, rfl⟩
  | cons c cs ih =>
    intro h st
    obtain ⟨s, v, h1, h2⟩ := h c (List.mem_cons_self _ _)
    have hstep : ∃ st1, processContainer st c = Except.ok st1 := by
      simp only [processContainer, h1, h2]
      exact ⟨_, rfl⟩
    obtain ⟨st1, hst1⟩ := hstep
    obtain ⟨st2, hst2⟩ := ih (fun d hd => h d (List.mem_cons_of_mem _ hd)) st1
    refine ⟨st2, ?_⟩
    rw [List.foldlM_cons, hst1]
    exact hst2

/-- When the detail page is fetched and the long-description, image and
packaging parses succeed and the tag lookup does not raise, the
detail-page phase yields exactly the product dict of crawler.py
lines 168-190. -/
theorem enrichDetail_ok (env : CrawlEnv) (pid : ℕ) (l : Listing)
    (page : DetailPage) (paragraphs grid : List String)
    (rest : List (List String)) (tagsRes : Option (List String))
    (hf : env.detailFetch l.pipUrl = some page)
    (hp : page.detailsParagraphs = some paragraphs)
    (hg : page.mediaGrids = grid :: rest)
    (hc : ∀ c ∈ page.packageContainers,
      ∃ s v, c.identSpan = some s ∧ parseIdentSpan s = some v)
    (ht : getCategoryTags env.tagsHttp pid = .ok tagsRes) :
    ∃ pack,
      page.packageContainers.foldlM processContainer ⟨0, 0, 0, 0, []⟩ =
          Except.ok pack ∧
      enrichDetail env pid l =
        .ok (some (mkProduct env pid l page paragraphs grid pack tagsRes)) := by
  obtain ⟨pack, hpack⟩ :=
    foldlM_containers_ok page.packageContainers hc ⟨0, 0, 0, 0, []⟩
  refine ⟨pack, hpack, ?_⟩
  simp only [enrichDetail, hf, hp, hg, hpack, ht]

/- ===== C4: per-field degradation during enrichment ===== -/

/-- C4 (amended): once a fresh identifier is recorded, a detail page that
cannot be fetched makes enrichment return absent; with the page fetched,
only a materials-parse failure degrades (to the empty string) — the
product is still returned, its materials formatted from whatever parsed —
while a missing long-description container makes enrichment raise (the
orchestrator catches the exception and drops the product). -/
theorem c4_enrichment (env : CrawlEnv) (seen : List ℕ) (l : Listing)
    (pid : ℕ) (hid : numericId l.id = some pid) (hns : pid ∉ seen) :
    (env.detailFetch l.pipUrl = none →
      processSingleProduct env seen l = (seen ++ [pid], .ok none)) ∧
    (∀ page paragraphs grid rest tagsRes,
      env.detailFetch l.pipUrl = some page →
      page.detailsParagraphs = some paragraphs →
      page.mediaGrids = grid :: rest →
      (∀ c ∈ page.packageContainers,
        ∃ s v, c.identSpan = some s ∧ parseIdentSpan s = some v) →
      getCategoryTags env.tagsHttp pid = .ok tagsRes →
      ∃ p, (processSingleProduct env seen l).2 = .ok (some p) ∧
        p.materials = formatMaterials page.materialEntries ∧
        (page.materialEntries = none → p.materials = "")) ∧
    (∀ page, env.detailFetch l.pipUrl = some page →
      page.detailsParagraphs = none →
      (processSingleProduct env seen l).2 = .error .longDesc) := by
  have hstep : processSingleProduct env seen l =
      (seen ++ [pid], enrichDetail env pid l) := by
    simp [processSingleProduct, hid, hns]
  refine ⟨?_, ?_, ?_⟩
  · intro hf
    rw [hstep]
    simp only [enrichDetail, hf]
  · intro page paragraphs grid rest tagsRes hf hp hg hc ht
    obtain ⟨pack, _, hok⟩ :=
      enrichDetail_ok env pid l page paragraphs grid rest tagsRes hf hp hg hc ht
    rw [hstep]
    exact ⟨mkProduct env pid l page paragraphs grid pack tagsRes, hok,
      rfl, fun hm => by simp [mkProduct, hm, formatMaterials]⟩
  · intro page hf hp
    rw [hstep]
    simp only [enrichDetail, hf, hp]

/-- Listing fixture with identifier 10123456. -/
def lst1 : Listing :=
  { id := "p10123456", name := "STOL", mainImageAlt := "STOL sto",
    mainImageUrl := "m", pipUrl := "https://www.ikea.com/rs/sr/p/x",
    salesPriceNumeral := 117, availability := [], categoryPath := ["cat"] }

/-- Detail page whose product-details container is missing but that is
otherwise parseable. -/
def pageNoDetails : DetailPage :=
  { detailsParagraphs := none, materialEntries := none,
    mediaGrids := [["i"]], packageContainers := [], multiPackDiv := false }

/-- Fully parseable detail page with no materials block. -/
def pageOK : DetailPage :=
  { detailsParagraphs := some ["d1"], materialEntries := none,
    mediaGrids := [["img1"]], packageContainers := [], multiPackDiv := false }

/-- Environment whose detail fetches return the container-less page. -/
def env4 : CrawlEnv :=
  { categoryTree := [], getProductsInCat := fun _ => none,
    hrFetch := fun _ => none, detailFetch := fun _ => some pageNoDetails,
    tagsHttp := fun _ => some ⟨200, TagsBody.wellFormed (some ["t"])⟩,
    now := "T" }

/-- Environment whose detail fetches return the fully parseable page. -/
def envOK : CrawlEnv :=
  { categoryTree := [("Kitchen", [⟨"Cabinets", "cab"⟩])],
    getProductsInCat := fun _ => none,
    hrFetch := fun _ => none, detailFetch := fun _ => some pageOK,
    tagsHttp := fun _ => some ⟨200, TagsBody.wellFormed (some ["t"])⟩,
    now := "T" }

/-- C4 counterexample: the detail page is fetched (`isSome`), yet
enrichment raises on the missing long-description container instead of
degrading that field — the claim's "returns a product whenever the page is
fetched" fails here. -/
theorem c4_counterexample :
    (env4.detailFetch lst1.pipUrl).isSome = true ∧
    (processSingleProduct env4 [] lst1).2 = .error CrawlErr.longDesc := by
  constructor
  · rfl
  · rfl

/-- C4 witness: with every parse succeeding and no materials block, a
product is produced whose materials are empty. -/
theorem c4_enrichment_witness :
    ∃ p, (processSingleProduct envOK [] lst1).2 = .ok (some p) ∧
      p.materials = formatMaterials pageOK.materialEntries ∧
      (pageOK.materialEntries = none → p.materials = "") :=
  (c4_enrichment envOK [] lst1 10123456 (by decide) (by decide)).2.1
    pageOK ["d1"] ["img1"] [] (some ["t"]) rfl rfl rfl
    (by intro c hc; cases hc) rfl

/- ===== C9: secondary-market price failure modes ===== -/

/-- C9 (amended): a failed Croatian page fetch or a missing price div
records `price_hr` as `None`; but when the div is present, each
unparseable span falls back to 0 — so a present, fully unparseable price
block records 0.0 rather than `None` — and enrichment still proceeds to a
product carrying this `price_hr`. -/
theorem c9_price_hr (env : CrawlEnv) (l : Listing) :
    (env.hrFetch (hrUrl l.pipUrl) = none →
      computePriceHr env.hrFetch l.pipUrl = none) ∧
    (∀ pg, env.hrFetch (hrUrl l.pipUrl) = some pg → pg.priceDiv = none →
      computePriceHr env.hrFetch l.pipUrl = none) ∧
    (∀ pg sp, env.hrFetch (hrUrl l.pipUrl) = some pg →
      pg.priceDiv = some sp →
      computePriceHr env.hrFetch l.pipUrl =
        some ((sp.integerPart.getD 0 : ℚ) + (sp.decimalPart.getD 0 : ℚ) / 100)) ∧
    (∀ pid page paragraphs grid rest tagsRes,
      numericId l.id = some pid →
      env.detailFetch l.pipUrl = some page →
      page.detailsParagraphs = some paragraphs →
      page.mediaGrids = grid :: rest →
      (∀ c ∈ page.packageContainers,
        ∃ s v, c.identSpan = some s ∧ parseIdentSpan s = some v) →
      getCategoryTags env.tagsHttp pid = .ok tagsRes →
      ∃ p, (processSingleProduct env [] l).2 = .ok (some p) ∧
        p.price_hr = computePriceHr env.hrFetch l.pipUrl) := by
  refine ⟨?_, ?_, ?_, ?_⟩
  · intro h
    simp [computePriceHr, h]
  · intro pg h hdiv
    simp [computePriceHr, h, hdiv]
  · intro pg sp h hdiv
    simp [computePriceHr, h, hdiv]
  · intro pid page paragraphs grid rest tagsRes hid hf hp hg hc ht
    obtain ⟨pack, _, hok⟩ :=
      enrichDetail_ok env pid l page paragraphs grid rest tagsRes hf hp hg hc ht
    have hstep : processSingleProduct env [] l =
        ([pid], enrichDetail env pid l) := by
      simp [processSingleProduct, hid]
    rw [hstep]
    exact ⟨mkProduct env pid l page paragraphs grid pack tagsRes, hok, rfl⟩

/-- Environment whose Croatian page has the price div with both spans
unparseable. -/
def envHrZero : CrawlEnv :=
  { envOK with hrFetch := fun _ => some ⟨some ⟨none, none⟩⟩ }

/-- C9 counterexample: the Croatian page is fetched and its price block is
present but fully unparseable; enrichment succeeds and records `price_hr`
as 0 — not as the distinguished absent value the claim requires. -/
theorem c9_counterexample :
    (envHrZero.hrFetch (hrUrl lst1.pipUrl)).isSome = true ∧
    ((envHrZero.hrFetch (hrUrl lst1.pipUrl)).bind HrPage.priceDiv).isSome
      = true ∧
    computePriceHr envHrZero.hrFetch lst1.pipUrl = some 0 ∧
    ∃ p, (processSingleProduct envHrZero [] lst1).2 = .ok (some p) ∧
      p.price_hr = some 0 := by
  have hval : computePriceHr envHrZero.hrFetch lst1.pipUrl = some 0 := by
    have h : envHrZero.hrFetch (hrUrl lst1.pipUrl) = some ⟨some ⟨none, none⟩⟩ :=
      rfl
    simp only [computePriceHr, h, Option.getD]
    norm_num
  obtain ⟨pack, _, hok⟩ :=
    enrichDetail_ok envHrZero 10123456 lst1 pageOK ["d1"] ["img1"] []
      (some ["t"]) rfl rfl rfl (by intro c hc; cases hc) rfl
  have hid : numericId lst1.id = some 10123456 := by decide
  have hstep : processSingleProduct envHrZero [] lst1 =
      ([10123456], enrichDetail envHrZero 10123456 lst1) := by
    simp [processSingleProduct, hid]
  refine ⟨rfl, rfl, hval,
    ⟨mkProduct envHrZero 10123456 lst1 pageOK ["d1"] ["img1"] pack
      (some ["t"]), ?_, ?_⟩⟩
  · rw [hstep]
    exact hok
  · show (mkProduct envHrZero 10123456 lst1 pageOK ["d1"] ["img1"] pack
      (some ["t"])).price_hr = some 0
    simp only [mkProduct]
    exact hval

/-- C9 witness: with the Croatian fetch failing, the produced product
records `price_hr` as `None`. -/
theorem c9_price_hr_witness :
    computePriceHr envOK.hrFetch lst1.pipUrl = none ∧
    ∃ p, (processSingleProduct envOK [] lst1).2 = .ok (some p) ∧
      p.price_hr = computePriceHr envOK.hrFetch lst1.pipUrl :=
  ⟨(c9_price_hr envOK lst1).1 rfl,
    (c9_price_hr envOK lst1).2.2.2 10123456 pageOK ["d1"] ["img1"] []
      (some ["t"]) (by decide) rfl rfl rfl (by intro c hc; cases hc) rfl⟩

/- ===== C10: failed enrichments are never re-attempted ===== -/

/-- The seen-identifier list only grows: either unchanged, or by appending
the listing's freshly parsed id. -/
theorem psp_crawled_cases (env : CrawlEnv) (seen : List ℕ) (l : Listing) :
    (processSingleProduct env seen l).1 = seen ∨
    ∃ pid, numericId l.id = some pid ∧ pid ∉ seen ∧
      (processSingleProduct env seen l).1 = seen ++ [pid] := by
  cases hn : numericId l.id with
  | none => left; simp [processSingleProduct, hn]
  | some pid =>
    by_cases hm : pid ∈ seen
    · left; simp [processSingleProduct, hn, hm]
    · right; exact ⟨pid, rfl, hm, by simp [processSingleProduct, hn, hm]⟩

/-- Membership in the seen list is preserved by one processing step. -/
theorem psp_crawled_mono (env : CrawlEnv) (seen : List ℕ) (l : Listing)
    (a : ℕ) (ha : a ∈ seen) : a ∈ (processSingleProduct env seen l).1 := by
  rcases psp_crawled_cases env seen l with h | ⟨pid, _, _, h⟩ <;> rw [h]
  · exact ha
  · exact List.mem_append_left _ ha

/-- The product produced by the detail phase carries the id it was given. -/
theorem enrichDetail_pid (env : CrawlEnv) (pid : ℕ) (l : Listing) (p : PItem)
    (h : enrichDetail env pid l = .ok (some p)) : p.product_id = pid := by
  cases hdf : env.detailFetch l.pipUrl with
  | none => simp [enrichDetail, hdf] at h
  | some page =>
    cases hp : page.detailsParagraphs with
    | none => simp [enrichDetail, hdf, hp] at h
    | some paragraphs =>
      cases hg : page.mediaGrids with
      | nil => simp [enrichDetail, hdf, hp, hg] at h
      | cons grid rest =>
        cases hpk : page.packageContainers.foldlM processContainer
            ⟨0, 0, 0, 0, []⟩ with
        | error e => simp [enrichDetail, hdf, hp, hg, hpk] at h
        | ok pack =>
          cases ht : getCategoryTags env.tagsHttp pid with
          | error e => simp [enrichDetail, hdf, hp, hg, hpk, ht] at h
          | ok tagsRes =>
            simp only [enrichDetail, hdf, hp, hg, hpk, ht,
              Except.ok.injEq, Option.some.injEq] at h
            rw [← h]
            rfl

/-- A successful enrichment reveals its listing's parsed id, that the id
was fresh, and that it was recorded. -/
theorem psp_ok_pid (env : CrawlEnv) (seen : List ℕ) (l : Listing) (p : PItem)
    (h : (processSingleProduct env seen l).2 = .ok (some p)) :
    numericId l.id = some p.product_id ∧ p.product_id ∉ seen ∧
    (processSingleProduct env seen l).1 = seen ++ [p.product_id] := by
  cases hn : numericId l.id with
  | none => simp [processSingleProduct, hn] at h
  | some pid =>
    by_cases hm : pid ∈ seen
    · simp [processSingleProduct, hn, hm] at h
    · simp only [processSingleProduct, hn, hm, if_neg] at h ⊢
      have hpid : p.product_id = pid := enrichDetail_pid env pid l p (by simpa using h)
      rw [hpid]
      simp [hm]

/-- Ids already recorded stay recorded through a listing walk and are never
yielded as product ids. -/
theorem yieldProds_blocked (env : CrawlEnv) (i : ℕ) :
    ∀ (ls : List Listing) (crawled : List ℕ), i ∈ crawled →
      i ∈ (yieldProds env crawled ls).1 ∧
      i ∉ (yieldProds env crawled ls).2.map (fun p => p.product_id) := by
  intro ls
  induction ls with
  | nil => intro crawled hi; simpa [yieldProds] using hi
  | cons l rest ih =>
    intro crawled hi
    have hi1 : i ∈ (processSingleProduct env crawled l).1 :=
      psp_crawled_mono env crawled l i hi
    cases hstep : processSingleProduct env crawled l with
    | mk c1 r =>
      rw [hstep] at hi1
      cases r with
      | ok o =>
        cases o with
        | none => simpa [yieldProds, hstep] using ih c1 hi1
        | some p =>
          have hpid := psp_ok_pid env crawled l p (by rw [hstep])
          have hne : p.product_id ≠ i := fun he => hpid.2.1 (he ▸ hi)
          have hrest := ih c1 hi1
          refine ⟨?_, ?_⟩
          · simpa [yieldProds, hstep] using hrest.1
          · simp only [yieldProds, hstep, List.map_cons, List.mem_cons]
            rintro (he | he)
            · exact hne he.symm
            · exact hrest.2 he
      | error e => simpa [yieldProds, hstep] using ih c1 hi1

/-- Listings whose id differs from `i` neither record `i` nor yield a
product with id `i`. -/
theorem yieldProds_avoid (env : CrawlEnv) (i : ℕ) :
    ∀ (ls : List Listing) (crawled : List ℕ), i ∉ crawled →
      (∀ l ∈ ls, numericId l.id ≠ some i) →
      i ∉ (yieldProds env crawled ls).1 ∧
      i ∉ (yieldProds env crawled ls).2.map (fun p => p.product_id) := by
  intro ls
  induction ls with
  | nil => intro crawled hi _; simpa [yieldProds] using hi
  | cons l rest ih =>
    intro crawled hi hids
    have hlid : numericId l.id ≠ some i := hids l (List.mem_cons_self _ _)
    have hc1 : i ∉ (processSingleProduct env crawled l).1 := by
      rcases psp_crawled_cases env crawled l with h | ⟨pid, hpid, _, h⟩ <;> rw [h]
      · exact hi
      · intro hmem
        rcases List.mem_append.mp hmem with hmem | hmem
        · exact hi hmem
        · rcases List.mem_singleton.mp hmem with rfl
          exact hlid hpid
    cases hstep : processSingleProduct env crawled l with
    | mk c1 r =>
      rw [hstep] at hc1
      have hrest := ih c1 hc1 (fun x hx => hids x (List.mem_cons_of_mem _ hx))
      cases r with
      | ok o =>
        cases o with
        | none => simpa [yieldProds, hstep] using hrest
        | some p =>
          have hpid := psp_ok_pid env crawled l p (by rw [hstep])
          have hne : p.product_id ≠ i := fun he => hlid (he ▸ hpid.1)
          refine ⟨by simpa [yieldProds, hstep] using hrest.1, ?_⟩
          simp only [yieldProds, hstep, List.map_cons, List.mem_cons]
          rintro (he | he)
          · exact hne he.symm
          · exact hrest.2 he
      | error e => simpa [yieldProds, hstep] using hrest

/-- Walking a concatenation walks the parts in sequence, threading the
seen list. -/
theorem yieldProds_append (env : CrawlEnv) :
    ∀ (xs ys : List Listing) (crawled : List ℕ),
      yieldProds env crawled (xs ++ ys) =
        ((yieldProds env (yieldProds env crawled xs).1 ys).1,
         (yieldProds env crawled xs).2 ++
           (yieldProds env (yieldProds env crawled xs).1 ys).2) := by
  intro xs
  induction xs with
  | nil => intro ys crawled; simp [yieldProds]
  | cons l rest ih =>
    intro ys crawled
    cases hstep : processSingleProduct env crawled l with
    | mk c1 r =>
      cases r with
      | ok o =>
        cases o with
        | none => simp [yieldProds, hstep, ih]
        | some p => simp [yieldProds, hstep, ih]
      | error e => simp [yieldProds, hstep, ih]

/-- C10: the identifier is recorded in the per-run seen list even when the
detail-page fetch fails (it is appended before the fetch is attempted);
any later listing with an already-seen identifier short-circuits to
absent; consequently, when the first listing carrying identifier `i` fails
its detail fetch, no product with identifier `i` appears in the walk's
accumulated output. -/
theorem c10_failed_never_reattempted (env : CrawlEnv) :
    (∀ (seen : List ℕ) (l : Listing) (i : ℕ),
      numericId l.id = some i → i ∉ seen →
      env.detailFetch l.pipUrl = none →
      processSingleProduct env seen l = (seen ++ [i], .ok none)) ∧
    (∀ (seen : List ℕ) (l : Listing) (i : ℕ),
      numericId l.id = some i → i ∈ seen →
      processSingleProduct env seen l = (seen, .ok none)) ∧
    (∀ (crawled : List ℕ) (pre post : List Listing) (l0 : Listing) (i : ℕ),
      i ∉ crawled →
      (∀ l ∈ pre, numericId l.id ≠ some i) →
      numericId l0.id = some i →
      env.detailFetch l0.pipUrl = none →
      i ∉ (yieldProds env crawled (pre ++ l0 :: post)).2.map
        (fun p => p.product_id)) := by
  have part1 : ∀ (seen : List ℕ) (l : Listing) (i : ℕ),
      numericId l.id = some i → i ∉ seen →
      env.detailFetch l.pipUrl = none →
      processSingleProduct env seen l = (seen ++ [i], .ok none) := by
    intro seen l i hid hns hf
    simp [processSingleProduct, hid, hns, enrichDetail, hf]
  refine ⟨part1, ?_, ?_⟩
  · intro seen l i hid hm
    simp [processSingleProduct, hid, hm]
  · intro crawled pre post l0 i hni hpre hid hf
    rw [yieldProds_append]
    have hpre2 := yieldProds_avoid env i pre crawled hni hpre
    have hl0 := part1 (yieldProds env crawled pre).1 l0 i hid hpre2.1 hf
    have hpost : yieldProds env (yieldProds env crawled pre).1 (l0 :: post) =
        yieldProds env ((yieldProds env crawled pre).1 ++ [i]) post := by
      simp [yieldProds, hl0]
    rw [hpost]
    have hblocked := yieldProds_blocked env i post
      ((yieldProds env crawled pre).1 ++ [i])
      (List.mem_append_right _ (List.mem_singleton.mpr rfl))
    simp only [List.map_append, List.mem_append]
    rintro (hmem | hmem)
    · exact hpre2.2 hmem
    · exact hblocked.2 hmem

/-- Environment whose detail fetches all fail. -/
def envFail : CrawlEnv := { envOK with detailFetch := fun _ => none }

/-- Second listing fixture with the same identifier as `lst1`. -/
def lst1b : Listing := { lst1 with name := "STOL2", id := "x10123456y" }

/-- C10 witness: with the detail fetch failing, processing `lst1` records
its id and yields absent, a later same-id listing yields absent, and no
product with that id appears in the walk over both listings. -/
theorem c10_failed_never_reattempted_witness :
    processSingleProduct envFail [] lst1 = ([10123456], .ok none) ∧
    processSingleProduct envFail [10123456] lst1b = ([10123456], .ok none) ∧
    (10123456 : ℕ) ∉ (yieldProds envFail [] ([] ++ lst1 :: [lst1b])).2.map
      (fun p => p.product_id) :=
  ⟨(c10_failed_never_reattempted envFail).1 [] lst1 10123456 (by decide)
      (by decide) rfl,
   (c10_failed_never_reattempted envFail).2.1 [10123456] lst1b 10123456
      (by decide) (by decide),
   (c10_failed_never_reattempted envFail).2.2 [] [] [lst1b] lst1 10123456
      (by decide) (by intro l hl; cases hl) (by decide) rfl⟩

/- ===== C2: global item cap ===== -/

/-- Without a cap, the processing loop accumulates exactly the yielded
products and never sets the done flag. -/
theorem processLoop_uncapped (env : CrawlEnv) (base : ℕ) :
    ∀ (ls : List Listing) (crawled : List ℕ) (acc : List PItem),
      processLoop env none base crawled acc ls =
        ((yieldProds env crawled ls).1,
         acc ++ (yieldProds env crawled ls).2, false) := by
  intro ls
  induction ls with
  | nil => intro crawled acc; simp [processLoop, yieldProds]
  | cons l rest ih =>
    intro crawled acc
    cases hstep : processSingleProduct env crawled l with
    | mk c1 r =>
      cases r with
      | ok o =>
        cases o with
        | none => simp [processLoop, yieldProds, hstep, ih]
        | some p => simp [processLoop, yieldProds, hstep, capReached, ih]
      | error e => simp [processLoop, yieldProds, hstep, ih]

/-- With a cap `n` not yet reached, the processing loop either accumulates
every yielded product (when they fit strictly under the cap) or stops with
the done flag set exactly when the accumulated count reaches `n`, keeping
the length-(n - base - acc) prefix of the yielded products. -/
theorem processLoop_capped (env : CrawlEnv) (n : ℕ) (hn : 0 < n) (base : ℕ) :
    ∀ (ls : List Listing) (crawled : List ℕ) (acc : List PItem),
      base + acc.length < n →
      (base + acc.length + (yieldProds env crawled ls).2.length < n →
        processLoop env (some n) base crawled acc ls =
          ((yieldProds env crawled ls).1,
           acc ++ (yieldProds env crawled ls).2, false)) ∧
      (n ≤ base + acc.length + (yieldProds env crawled ls).2.length →
        ∃ c, processLoop env (some n) base crawled acc ls =
          (c, acc ++ (yieldProds env crawled ls).2.take (n - base - acc.length),
            true)) := by
  intro ls
  induction ls with
  | nil =>
    intro crawled acc hlt
    constructor
    · intro _
      simp [processLoop, yieldProds]
    · intro hge
      exfalso
      simp [yieldProds] at hge
      omega
  | cons l rest ih =>
    intro crawled acc hlt
    cases hstep : processSingleProduct env crawled l with
    | mk c1 r =>
      cases r with
      | error e =>
        have hy : yieldProds env crawled (l :: rest) =
            yieldProds env c1 rest := by
          simp [yieldProds, hstep]
        have hpl : processLoop env (some n) base crawled acc (l :: rest) =
            processLoop env (some n) base c1 acc rest := by
          simp [processLoop, hstep]
        rw [hy, hpl]
        exact ih c1 acc hlt
      | ok o =>
        cases o with
        | none =>
          have hy : yieldProds env crawled (l :: rest) =
              yieldProds env c1 rest := by
            simp [yieldProds, hstep]
          have hpl : processLoop env (some n) base crawled acc (l :: rest) =
              processLoop env (some n) base c1 acc rest := by
            simp [processLoop, hstep]
          rw [hy, hpl]
          exact ih c1 acc hlt
        | some p =>
          have hy : yieldProds env crawled (l :: rest) =
              ((yieldProds env c1 rest).1, p :: (yieldProds env c1 rest).2) := by
            simp [yieldProds, hstep]
          by_cases hcap : base + acc.length + 1 = n
          · have hcapb : capReached (some n) (base + (acc.length + 1))
                = true := by
              simp only [capReached, Bool.and_eq_true, bne_iff_ne, ne_eq,
                beq_iff_eq]
              omega
            have hpl : processLoop env (some n) base crawled acc (l :: rest) =
                (c1, acc ++ [p], true) := by
              simp [processLoop, hstep, hcapb]
            constructor
            · intro hless
              exfalso
              rw [hy] at hless
              simp at hless
              omega
            · intro _
              refine ⟨c1, ?_⟩
              rw [hpl, hy]
              have h1 : n - base - acc.length = 1 := by omega
              simp [h1]
          · have hcapb : capReached (some n) (base + (acc.length + 1))
                = false := by
              have hne : (base + (acc.length + 1) == n) = false := by
                rw [beq_eq_false_iff_ne]
                omega
              simp [capReached, hne]
            have hpl : processLoop env (some n) base crawled acc (l :: rest) =
                processLoop env (some n) base c1 (acc ++ [p]) rest := by
              simp [processLoop, hstep, hcapb]
            have hlt2 : base + (acc ++ [p]).length < n := by
              simp only [List.length_append, List.length_cons, List.length_nil]
              omega
            have ih2 := ih c1 (acc ++ [p]) hlt2
            rw [hpl, hy]
            constructor
            · intro hless
              have hless2 : base + (acc ++ [p]).length +
                  (yieldProds env c1 rest).2.length < n := by
                simp only [List.length_cons] at hless
                simp only [List.length_append, List.length_cons,
                  List.length_nil]
                omega
              rw [ih2.1 hless2]
              simp
            · intro hge
              have hge2 : n ≤ base + (acc ++ [p]).length +
                  (yieldProds env c1 rest).2.length := by
                simp only [List.length_cons] at hge
                simp only [List.length_append, List.length_cons,
                  List.length_nil]
                omega
              obtain ⟨c, hc⟩ := ih2.2 hge2
              refine ⟨c, ?_⟩
              rw [hc]
              have h1 : n - base - acc.length =
                  (n - base - (acc ++ [p]).length) + 1 := by
                simp only [List.length_append, List.length_cons,
                  List.length_nil]
                omega
              rw [h1, List.take_succ_cons]
              simp

/-- Without a cap, one subcategory step preserves the done flag and only
appends products. -/
theorem stepSubCat_none (env : CrawlEnv) (st : CrawlState) (sc : SubCat) :
    (stepSubCat env none st sc).done = st.done ∧
    ∃ ext, (stepSubCat env none st sc).products = st.products ++ ext := by
  cases hskip : sc.sub_cat_name == "Restoran i Bistro" with
  | true =>
    refine ⟨by simp [stepSubCat, hskip], [], by simp [stepSubCat, hskip]⟩
  | false =>
    cases hfetch : env.getProductsInCat sc.sub_cat_id with
    | none =>
      refine ⟨by simp [stepSubCat, hskip, hfetch], [],
        by simp [stepSubCat, hskip, hfetch]⟩
    | some listings =>
      refine ⟨?_, (yieldProds env st.crawledIds listings).2, ?_⟩ <;>
        simp [stepSubCat, hskip, hfetch, processLoop_uncapped]

/-- Without a cap, the subcategory walk preserves the done flag and only
appends products. -/
theorem runSubCats_none (env : CrawlEnv) :
    ∀ (subs : List SubCat) (st : CrawlState),
      (runSubCats env none st subs).done = st.done ∧
      ∃ ext, (runSubCats env none st subs).products = st.products ++ ext := by
  intro subs
  induction subs with
  | nil => intro st; exact ⟨rfl, [], by simp [runSubCats]⟩
  | cons sc rest ih =>
    intro st
    obtain ⟨hd, ext1, hp⟩ := stepSubCat_none env st sc
    by_cases h2 : (stepSubCat env none st sc).done = true
    · have heq : runSubCats env none st (sc :: rest) =
          stepSubCat env none st sc := by
        simp [runSubCats, h2]
      rw [heq]
      exact ⟨hd, ext1, hp⟩
    · have heq : runSubCats env none st (sc :: rest) =
          runSubCats env none (stepSubCat env none st sc) rest := by
        simp [runSubCats, h2]
      rw [heq]
      obtain ⟨hd2, ext2, hp2⟩ := ih (stepSubCat env none st sc)
      exact ⟨hd2.trans hd, ext1 ++ ext2,
        by rw [hp2, hp, List.append_assoc]⟩

/-- Without a cap, the category walk preserves the done flag and only
appends products. -/
theorem runCats_none (env : CrawlEnv) :
    ∀ (cats : List (String × List SubCat)) (st : CrawlState),
      (runCats env none st cats).done = st.done ∧
      ∃ ext, (runCats env none st cats).products = st.products ++ ext := by
  intro cats
  induction cats with
  | nil => intro st; exact ⟨rfl, [], by simp [runCats]⟩
  | cons c rest ih =>
    intro st
    obtain ⟨hd, ext1, hp⟩ := runSubCats_none env c.2 st
    by_cases h2 : (runSubCats env none st c.2).done = true
    · have heq : runCats env none st (c :: rest) =
          runSubCats env none st c.2 := by
        simp [runCats, h2]
      rw [heq]
      exact ⟨hd, ext1, hp⟩
    · have heq : runCats env none st (c :: rest) =
          runCats env none (runSubCats env none st c.2) rest := by
        simp [runCats, h2]
      rw [heq]
      obtain ⟨hd2, ext2, hp2⟩ := ih (runSubCats env none st c.2)
      exact ⟨hd2.trans hd, ext1 ++ ext2,
        by rw [hp2, hp, List.append_assoc]⟩

/-- Simulation of the capped subcategory walk against the uncapped one:
either the cap is never hit and the walks agree with fewer than `n`
products, or the capped walk stops with exactly `n` products that form the
length-`n` prefix of the uncapped walk's products. -/
theorem runSubCats_sim (env : CrawlEnv) (n : ℕ) (hn : 0 < n) :
    ∀ (subs : List SubCat) (st : CrawlState), st.done = false →
      st.products.length < n →
      (runSubCats env (some n) st subs = runSubCats env none st subs ∧
        (runSubCats env (some n) st subs).done = false ∧
        (runSubCats env (some n) st subs).products.length < n) ∨
      ((runSubCats env (some n) st subs).done = true ∧
        (runSubCats env (some n) st subs).products.length = n ∧
        (runSubCats env (some n) st subs).products =
          (runSubCats env none st subs).products.take n ∧
        n ≤ (runSubCats env none st subs).products.length) := by
  intro subs
  induction subs with
  | nil =>
    intro st h1 h2
    left
    exact ⟨rfl, by simpa [runSubCats] using h1, by simpa [runSubCats] using h2⟩
  | cons sc rest ih =>
    intro st h1 h2
    cases hskip : sc.sub_cat_name == "Restoran i Bistro" with
    | true =>
      have e1 : stepSubCat env (some n) st sc = st := by
        simp [stepSubCat, hskip]
      have e2 : stepSubCat env none st sc = st := by
        simp [stepSubCat, hskip]
      have r1 : runSubCats env (some n) st (sc :: rest) =
          runSubCats env (some n) st rest := by
        simp [runSubCats, e1, h1]
      have r2 : runSubCats env none st (sc :: rest) =
          runSubCats env none st rest := by
        simp [runSubCats, e2, h1]
      rw [r1, r2]
      exact ih st h1 h2
    | false =>
      cases hfetch : env.getProductsInCat sc.sub_cat_id with
      | none =>
        have e1 : stepSubCat env (some n) st sc = st := by
          simp [stepSubCat, hskip, hfetch]
        have e2 : stepSubCat env none st sc = st := by
          simp [stepSubCat, hskip, hfetch]
        have r1 : runSubCats env (some n) st (sc :: rest) =
            runSubCats env (some n) st rest := by
          simp [runSubCats, e1, h1]
        have r2 : runSubCats env none st (sc :: rest) =
            runSubCats env none st rest := by
          simp [runSubCats, e2, h1]
        rw [r1, r2]
        exact ih st h1 h2
      | some listings =>
        have hPL := processLoop_capped env n hn st.products.length listings
          st.crawledIds [] (by simpa using h2)
        have hstepU : stepSubCat env none st sc =
            { products := st.products ++
                (yieldProds env st.crawledIds listings).2,
              crawledIds := (yieldProds env st.crawledIds listings).1,
              done := st.done } := by
          simp [stepSubCat, hskip, hfetch, processLoop_uncapped]
        by_cases hcase : st.products.length +
            (yieldProds env st.crawledIds listings).2.length < n
        · have hcap := hPL.1 (by simpa using hcase)
          have estep : stepSubCat env (some n) st sc =
              stepSubCat env none st sc := by
            simp [stepSubCat, hskip, hfetch, hcap, processLoop_uncapped]
          have hUdone : (stepSubCat env none st sc).done = false := by
            rw [hstepU]
            exact h1
          have hUlen : (stepSubCat env none st sc).products.length < n := by
            rw [hstepU]
            simpa using hcase
          have r1 : runSubCats env (some n) st (sc :: rest) =
              runSubCats env (some n) (stepSubCat env none st sc) rest := by
            simp [runSubCats, estep, hUdone]
          have r2 : runSubCats env none st (sc :: rest) =
              runSubCats env none (stepSubCat env none st sc) rest := by
            simp [runSubCats, hUdone]
          rw [r1, r2]
          exact ih (stepSubCat env none st sc) hUdone hUlen
        · have hge : n ≤ st.products.length +
              (yieldProds env st.crawledIds listings).2.length :=
            Nat.le_of_not_lt hcase
          obtain ⟨c, hcap⟩ := hPL.2 (by simpa using hge)
          have hstepC : stepSubCat env (some n) st sc =
              { products := st.products ++
                  (yieldProds env st.crawledIds listings).2.take
                    (n - st.products.length),
                crawledIds := c,
                done := true } := by
            simp [stepSubCat, hskip, hfetch, hcap]
          have r1 : runSubCats env (some n) st (sc :: rest) =
              stepSubCat env (some n) st sc := by
            simp [runSubCats, hstepC]
          have hUdone : (stepSubCat env none st sc).done = false := by
            rw [hstepU]
            exact h1
          have r2 : runSubCats env none st (sc :: rest) =
              runSubCats env none (stepSubCat env none st sc) rest := by
            simp [runSubCats, hUdone]
          obtain ⟨hd2, ext, hext⟩ :=
            runSubCats_none env rest (stepSubCat env none st sc)
          right
          refine ⟨?_, ?_, ?_, ?_⟩
          · rw [r1, hstepC]
          · rw [r1, hstepC]
            simp only [List.length_append, List.length_take]
            omega
          · rw [r1, hstepC, r2, hext, hstepU]
            simp only
            rw [List.append_assoc, List.take_append_eq_append_take,
              List.take_of_length_le (Nat.le_of_lt h2),
              List.take_append_eq_append_take]
            have hz : n - st.products.length -
                (yieldProds env st.crawledIds listings).2.length = 0 := by
              omega
            rw [hz, List.take_zero, List.append_nil]
          · rw [r2, hext, hstepU]
            simp only [List.length_append]
            omega

/-- Simulation of the capped category walk against the uncapped one. -/
theorem runCats_sim (env : CrawlEnv) (n : ℕ) (hn : 0 < n) :
    ∀ (cats : List (String × List SubCat)) (st : CrawlState),
      st.done = false → st.products.length < n →
      (runCats env (some n) st cats = runCats env none st cats ∧
        (runCats env (some n) st cats).done = false ∧
        (runCats env (some n) st cats).products.length < n) ∨
      ((runCats env (some n) st cats).done = true ∧
        (runCats env (some n) st cats).products.length = n ∧
        (runCats env (some n) st cats).products =
          (runCats env none st cats).products.take n ∧
        n ≤ (runCats env none st cats).products.length) := by
  intro cats
  induction cats with
  | nil =>
    intro st h1 h2
    left
    exact ⟨rfl, by simpa [runCats] using h1, by simpa [runCats] using h2⟩
  | cons c rest ih =>
    intro st h1 h2
    rcases runSubCats_sim env n hn c.2 st h1 h2 with
      ⟨heq, hd, hl⟩ | ⟨hd, hl, ht, hge⟩
    · have hd2 : (runSubCats env none st c.2).done = false := heq ▸ hd
      have hl2 : (runSubCats env none st c.2).products.length < n := heq ▸ hl
      have r1 : runCats env (some n) st (c :: rest) =
          runCats env (some n) (runSubCats env none st c.2) rest := by
        simp [runCats, heq, hd2]
      have r2 : runCats env none st (c :: rest) =
          runCats env none (runSubCats env none st c.2) rest := by
        simp [runCats, hd2]
      rw [r1, r2]
      exact ih (runSubCats env none st c.2) hd2 hl2
    · have r1 : runCats env (some n) st (c :: rest) =
          runSubCats env (some n) st c.2 := by
        simp [runCats, hd]
      have hUdone : (runSubCats env none st c.2).done = false :=
        (runSubCats_none env c.2 st).1.trans h1
      have r2 : runCats env none st (c :: rest) =
          runCats env none (runSubCats env none st c.2) rest := by
        simp [runCats, hUdone]
      obtain ⟨hd2, ext, hext⟩ :=
        runCats_none env rest (runSubCats env none st c.2)
      right
      refine ⟨by rw [r1]; exact hd, by rw [r1]; exact hl, ?_, ?_⟩
      · rw [r1, r2, hext, ht]
        exact (List.take_append_of_le_length hge).symm
      · rw [r2, hext]
        simp only [List.length_append]
        omega

/-- C2: with a global cap `n ≥ 1` the sequential crawl accumulates exactly
the length-`n` prefix of what the uncapped crawl would accumulate — so its
size never exceeds `n`, it equals `n` whenever the source yields at least
`n` enrichable products, and nothing past the cap point (no further
subcategory or category output) enters the result. -/
theorem c2_cap_respected (env : CrawlEnv) (n : ℕ) (hn : 1 ≤ n) :
    (runCrawler env (some n)).products =
      (runCrawler env none).products.take n ∧
    (runCrawler env (some n)).products.length ≤ n ∧
    (n ≤ (runCrawler env none).products.length →
      (runCrawler env (some n)).products.length = n) := by
  have h := runCats_sim env n hn env.categoryTree ⟨[], [], false⟩ rfl
    (by simpa using hn)
  rcases h with ⟨heq, _, hlt⟩ | ⟨_, hlen, htake, hge⟩
  · have hlt2 : (runCats env none ⟨[], [], false⟩ env.categoryTree).products.length < n :=
      heq ▸ hlt
    refine ⟨?_, ?_, ?_⟩
    · show (runCats env (some n) ⟨[], [], false⟩ env.categoryTree).products = _
      rw [heq]
      exact (List.take_of_length_le (Nat.le_of_lt hlt2)).symm
    · show (runCats env (some n) ⟨[], [], false⟩ env.categoryTree).products.length ≤ n
      rw [heq]
      exact Nat.le_of_lt hlt2
    · intro hge
      exact absurd hge (Nat.not_le_of_lt hlt2)
  · exact ⟨htake, Nat.le_of_eq hlen, fun _ => hlen⟩

/-- Three distinct enrichable listings. -/
def c2Listings : List Listing :=
  [lst1, { lst1 with id := "20000001" }, { lst1 with id := "20000002" }]

/-- Environment with one category, one subcategory and three distinct
enrichable listings. -/
def envC2 : CrawlEnv :=
  { envOK with getProductsInCat := fun _ => some c2Listings }

/-- C2 witness: cap 2 over a source yielding 3 enrichable products. -/
theorem c2_cap_respected_witness :
    (runCrawler envC2 (some 2)).products =
      (runCrawler envC2 none).products.take 2 ∧
    (runCrawler envC2 (some 2)).products.length ≤ 2 ∧
    (2 ≤ (runCrawler envC2 none).products.length →
      (runCrawler envC2 (some 2)).products.length = 2) :=
  c2_cap_respected envC2 2 (by norm_num)

end IkeaModel







